import Mathlib

/-!
Shallow embedding of the Medical-Symptoms-Chatbot RAG application core:
the Conversation Store (`src/memory_manager.py`), the Severity Classifier
and RAG Orchestrator (`src/rag_chain.py`), and the per-query handler
(`medical_chatbot.py`).  File storage is modelled as an association list
from file names (base names inside the memory directory) to parsed file
contents; a file that exists but cannot be parsed as JSON is modelled by
the `corrupt` constructor.  Timestamps are modelled as natural numbers
passed explicitly to each operation.  Python character-level operations
(slicing, `str.lower`, substring tests) are modelled on `List Char`.
-/

set_option maxRecDepth 16384

namespace MedChat

/-! ## Configuration constants (`config.py`) -/

/-- `MEMORY_PATH` from `config.py` (default value). -/
def MEMORY_PATH : String := "memory/users"

/-- `MAX_CONVERSATION_HISTORY` from `config.py` (default value). -/
def MAX_CONVERSATION_HISTORY : Nat := 10

/-- `RETRIEVER_K` from `config.py` (default value). -/
def RETRIEVER_K : Nat := 5

/-- `MEDICAL_DISCLAIMER` from `config.py`, transcribed verbatim. -/
def MEDICAL_DISCLAIMER : String :=
  "\n⚠️ **IMPORTANT DISCLAIMER**\nI am an AI assistant, NOT a doctor. The information provided is for educational purposes only and should not be considered medical advice. Always consult with a qualified healthcare professional for diagnosis and treatment. If you are experiencing a medical emergency, please call your local emergency services immediately.\n"

/-- `SEVERITY_KEYWORDS` from `config.py`, transcribed verbatim. -/
def SEVERITY_KEYWORDS : List String :=
  ["chest pain", "difficulty breathing", "severe headache", "stroke",
   "heart attack", "unconscious", "high fever", "severe bleeding",
   "allergic reaction", "anaphylaxis", "sudden numbness", "slurred speech"]

/-! ## Python-level helpers -/

/-- A JSON-like value, the payload type of preference and metadata maps
(a closed variant type: string, number, boolean, list of strings — the
shapes the code actually stores). -/
inductive JVal where
  | str : String → JVal
  | num : Int → JVal
  | bool : Bool → JVal
  | strList : List String → JVal
  deriving DecidableEq, Repr

/-- An insertion-ordered string-keyed map, modelling a Python dict. -/
abbrev Dict := List (String × JVal)

/-- Keys of a dict, in insertion order. -/
def dictKeys (d : Dict) : List String := d.map Prod.fst

/-- Lookup in a dict (`d[k]` / `d.get(k)`). -/
def dictGet (d : Dict) (k : String) : Option JVal :=
  (d.find? (fun p => p.1 = k)).map Prod.snd

/-- `d[k] = v` on a Python dict: overwrite in place if the key exists,
otherwise append at the end. -/
def dictSet (d : Dict) (k : String) (v : JVal) : Dict :=
  if d.any (fun p => p.1 = k) then
    d.map (fun p => if p.1 = k then (k, v) else p)
  else d ++ [(k, v)]

/-- Python `d.update(patch)`: key-wise overwrite, insertion order of new
keys follows `patch`. -/
def dictUpdate (d patch : Dict) : Dict :=
  patch.foldl (fun acc kv => dictSet acc kv.1 kv.2) d

/-- Python `str.lower()`, modelled character-wise. -/
def lowerStr (s : String) : String := String.mk (s.toList.map Char.toLower)

/-- Python `needle in hay` (contiguous substring test). -/
def strContains (hay needle : String) : Bool :=
  decide (needle.toList <:+: hay.toList)

/-- Python `s.endswith(suffix)`. -/
def strEndsWith (s suffix : String) : Bool :=
  decide (suffix.toList <:+ s.toList)

/-- Python slice `s[:n]` on a string (by code points). -/
def pyTake (s : String) (n : Nat) : String := String.mk (s.toList.take n)

/-- Python `len(s)` (number of code points). -/
def pyLen (s : String) : Nat := s.toList.length

/-- Python slice `l[-n:]`: the last `n` elements (the whole list when
`n = 0`, since `l[-0:]` is `l[0:]`). -/
def pyLastSlice (l : List α) (n : Nat) : List α :=
  if n = 0 then l else l.drop (l.length - n)

/-- One fuel-indexed step loop removing every (leftmost, non-overlapping)
occurrence of `pat`; the fuel only needs to be at least the input length,
and each step consumes at least one character. -/
def removeOccsFuel (pat : List Char) : Nat → List Char → List Char
  | _, [] => []
  | 0, s => s
  | Nat.succ fuel, c :: rest =>
    if pat ≠ [] ∧ pat <+: (c :: rest) then
      removeOccsFuel pat fuel ((c :: rest).drop pat.length)
    else c :: removeOccsFuel pat fuel rest

/-- Remove every (leftmost, non-overlapping) occurrence of `pat` from `s`;
this is Python `s.replace(pat, "")` for a non-empty `pat`, on `List Char`. -/
def removeOccs (pat s : List Char) : List Char :=
  removeOccsFuel pat s.length s

/-- Python `s.replace(pat, "")` on strings (non-empty `pat`). -/
def pyRemove (s pat : String) : String :=
  String.mk (removeOccs pat.toList s.toList)

/-! ## Data model (`UserMemory` records stored as JSON files) -/

/-- One conversation turn, as stored in `memory["conversations"]`. -/
structure ConversationTurn where
  timestamp : Nat
  user_message : String
  bot_response : String
  metadata : Dict
  deriving DecidableEq, Repr

/-- A user memory record, as produced by `_create_default_memory` and
persisted by the Conversation Store. -/
structure UserMemory where
  user_id : String
  created_at : Nat
  conversations : List ConversationTurn
  preferences : Dict
  deriving DecidableEq, Repr

/-- Content of one storage file: either a record that parses, or a file
whose read raises `json.JSONDecodeError` / `IOError`. -/
inductive FileContent where
  | valid : UserMemory → FileContent
  | corrupt : FileContent
  deriving DecidableEq, Repr

/-- The memory directory: file base names paired with their contents. -/
structure World where
  files : List (String × FileContent)
  deriving DecidableEq, Repr

/-- Read a file from the memory directory (`none` = file does not exist). -/
def readFile (w : World) (name : String) : Option FileContent :=
  (w.files.find? (fun p => p.1 = name)).map Prod.snd

/-- Write (create or overwrite) a file in the memory directory. -/
def writeFile (w : World) (name : String) (c : FileContent) : World :=
  if w.files.any (fun p => p.1 = name) then
    ⟨w.files.map (fun p => if p.1 = name then (name, c) else p)⟩
  else ⟨w.files ++ [(name, c)]⟩

/-! ## Conversation Store (`src/memory_manager.py`, class `MemoryManager`) -/

/-- The character class kept by the sanitizer in `_get_user_file_path`:
`c.isalnum() or c in "-_"`. -/
def allowedChar (c : Char) : Bool := c.isAlphanum || c = '-' || c = '_'

/-- The sanitized user id: `"".join(c for c in user_id if c.isalnum() or c in "-_")`. -/
def sanitizeUserId (user_id : String) : String :=
  String.mk (user_id.toList.filter allowedChar)

/-- Base name of the storage file for a user: `f"{safe_user_id}.json"`. -/
def userFileName (user_id : String) : String := sanitizeUserId user_id ++ ".json"

/-- `MemoryManager._get_user_file_path`:
`os.path.join(self.memory_path, f"{safe_user_id}.json")`. -/
def get_user_file_path (user_id : String) : String :=
  MEMORY_PATH ++ "/" ++ userFileName user_id

/-- `MemoryManager._create_default_memory`. -/
def create_default_memory (user_id : String) (now : Nat) : UserMemory :=
  { user_id := user_id
    created_at := now
    conversations := []
    preferences :=
      [("name", JVal.str user_id),
       ("known_conditions", JVal.strList []),
       ("allergies", JVal.strList [])] }

/-- `MemoryManager.get_user_memory`: return the parsed file if it exists
and parses; fall back to the default memory on a missing file or on
`json.JSONDecodeError` / `IOError`. -/
def get_user_memory (w : World) (user_id : String) (now : Nat) : UserMemory :=
  match readFile w (userFileName user_id) with
  | some (FileContent.valid m) => m
  | some FileContent.corrupt => create_default_memory user_id now
  | none => create_default_memory user_id now

/-- `MemoryManager.save_conversation`: load, append the new turn, trim to
the last `MAX_CONVERSATION_HISTORY` entries when over the cap, persist. -/
def save_conversation (w : World) (user_id user_message bot_response : String)
    (metadata : Option Dict) (now : Nat) : World :=
  let memory := get_user_memory w user_id now
  let entry : ConversationTurn :=
    { timestamp := now
      user_message := user_message
      bot_response := bot_response
      metadata := metadata.getD [] }
  let convs := memory.conversations ++ [entry]
  let convs :=
    if convs.length > MAX_CONVERSATION_HISTORY then
      pyLastSlice convs MAX_CONVERSATION_HISTORY
    else convs
  writeFile w (userFileName user_id)
    (FileContent.valid { memory with conversations := convs })

/-- `MemoryManager.get_conversation_history`. -/
def get_conversation_history (w : World) (user_id : String) (now : Nat) :
    List ConversationTurn :=
  (get_user_memory w user_id now).conversations

/-- `MemoryManager.get_formatted_history`: the last `max_turns` turns as
alternating `User:` / `Assistant:` lines, each bot response truncated to a
200-character preview followed by `"..."` when longer than 200 characters. -/
def get_formatted_history (w : World) (user_id : String) (max_turns : Nat)
    (now : Nat) : String :=
  let conversations := get_conversation_history w user_id now
  if conversations = [] then ""
  else
    let recent := pyLastSlice conversations max_turns
    let lines := recent.foldr (fun conv acc =>
      ("User: " ++ conv.user_message) ::
      (if 200 < pyLen conv.bot_response then
         "Assistant: " ++ pyTake conv.bot_response 200 ++ "..."
       else
         "Assistant: " ++ conv.bot_response) :: acc) []
    String.intercalate "\n" lines

/-- `MemoryManager.update_user_preferences`: key-wise merge into the
stored preferences, then persist. -/
def update_user_preferences (w : World) (user_id : String) (preferences : Dict)
    (now : Nat) : World :=
  let memory := get_user_memory w user_id now
  writeFile w (userFileName user_id)
    (FileContent.valid
      { memory with preferences := dictUpdate memory.preferences preferences })

/-- `MemoryManager.get_user_preferences`. -/
def get_user_preferences (w : World) (user_id : String) (now : Nat) : Dict :=
  (get_user_memory w user_id now).preferences

/-- `MemoryManager.clear_user_memory`: overwrite with a fresh default
record (re-initialization, not file deletion). -/
def clear_user_memory (w : World) (user_id : String) (now : Nat) : World :=
  writeFile w (userFileName user_id)
    (FileContent.valid (create_default_memory user_id now))

/-- `MemoryManager.list_users`: the name of every file ending in `.json`,
with `.json` removed via `filename.replace(".json", "")`. -/
def list_users (w : World) : List String :=
  (w.files.map Prod.fst).filterMap (fun filename =>
    if strEndsWith filename ".json" then some (pyRemove filename ".json")
    else none)

/-! ## RAG Orchestrator (`src/rag_chain.py`, class `MedicalRAGChain`) -/

/-- A retrieved document (`langchain` `Document`): text chunk plus
provenance metadata. -/
structure Document where
  page_content : String
  metadata : Dict
  deriving DecidableEq, Repr

/-- One entry of the source-citation list built in `invoke`. -/
structure SourceItem where
  content : String
  metadata : Dict
  deriving DecidableEq, Repr

/-- The mapping fed to `self.chain.invoke` (the `chain_input` dict). -/
structure ChainInput where
  context : String
  question : String
  conversation_history : String
  deriving DecidableEq, Repr

/-- The dictionary returned by `MedicalRAGChain.invoke`. -/
structure InvokeResult where
  answer : String
  sources : List SourceItem
  severity_detected : Bool
  deriving DecidableEq, Repr

/-- External collaborators of the orchestrator: the Knowledge Index
search (`search_vector_db`, which returns a list of documents and never
raises) and the Answer Generator (`self.chain.invoke`, which returns
generated text or raises — modelled as `Except`). -/
structure Extern where
  search_vector_db : String → Nat → List Document
  chain_invoke : ChainInput → Except String String

/-- A record of one call made to an external collaborator, used to state
that a code path never invokes retrieval or generation. -/
inductive ExtCall where
  | search : String → Nat → ExtCall
  | generate : ChainInput → ExtCall
  deriving DecidableEq, Repr

/-- `MedicalRAGChain._check_severity`: lower-case the query and test each
severity keyword for substring occurrence. -/
def check_severity (query : String) : Bool :=
  SEVERITY_KEYWORDS.any (fun keyword => strContains (lowerStr query) keyword)

/-- `MedicalRAGChain._get_severity_warning`, transcribed verbatim
(an f-string whose final interpolation is `MEDICAL_DISCLAIMER`). -/
def get_severity_warning : String :=
  "\n🚨 **IMPORTANT - SEEK MEDICAL ATTENTION**\n\nBased on your symptoms, you should seek medical attention immediately. \nPlease contact your local emergency services or go to the nearest emergency room.\n\n"
    ++ MEDICAL_DISCLAIMER ++ "\n"

/-- `MedicalRAGChain._format_chat_history`: the last 10 turns rendered as
alternating `User:` / `Assistant:` lines; every bot response is truncated
to 200 characters and suffixed with `"..."` unconditionally. -/
def format_chat_history (w : World) (user_id : String) (now : Nat) : String :=
  let conversations := get_conversation_history w user_id now
  if conversations = [] then ""
  else
    let lines := (pyLastSlice conversations 10).foldr (fun conv acc =>
      ("User: " ++ conv.user_message) ::
      ("Assistant: " ++ pyTake conv.bot_response 200 ++ "...") :: acc) []
    String.intercalate "\n" lines

/-- The apology substituted when `self.chain.invoke` raises, transcribed
from the `except` branch of `MedicalRAGChain.invoke`. -/
def apologyAnswer (e : String) : String :=
  "I apologize, but I encountered an error processing your query: " ++ e
    ++ "\n\n" ++ MEDICAL_DISCLAIMER

/-- `MedicalRAGChain.invoke`, instrumented with the list of external
calls it performs (second component).  The severity branch returns the
fixed warning with no external calls; the normal branch retrieves, formats
context / history / sources, invokes the chain, and substitutes the
apology answer if the chain raises. -/
def rag_invoke (ext : Extern) (w : World) (retriever_k : Nat)
    (user_id query : String) (now : Nat) : InvokeResult × List ExtCall :=
  if check_severity query then
    ({ answer := get_severity_warning
       sources := []
       severity_detected := true }, [])
  else
    let docs := ext.search_vector_db query retriever_k
    let context := String.intercalate "\n\n" (docs.map (fun d => d.page_content))
    let chat_history := format_chat_history w user_id now
    let sources := docs.map (fun d =>
      { content := pyTake d.page_content 200, metadata := d.metadata : SourceItem })
    let chain_input : ChainInput :=
      { context := context
        question := query
        conversation_history := chat_history }
    let answer :=
      match ext.chain_invoke chain_input with
      | Except.ok a => a
      | Except.error e => apologyAnswer e
    ({ answer := answer
       sources := sources
       severity_detected := false },
     [ExtCall.search query retriever_k, ExtCall.generate chain_input])

/-! ## Per-query processing (`medical_chatbot.py`,
`MedicalChatbot._handle_user_input`) -/

/-- Result of one full per-query processing step: the response returned
to the user, the storage state after persisting the turn, and the
external calls made. -/
structure HandleResult where
  response : String
  world : World
  calls : List ExtCall

/-- `MedicalChatbot._handle_user_input`: invoke the RAG chain, then save
the turn (user message, final answer) to the Conversation Store, then
return the answer. -/
def handle_user_input (ext : Extern) (w : World) (retriever_k : Nat)
    (user_id user_input : String) (now : Nat) : HandleResult :=
  let rc := rag_invoke ext w retriever_k user_id user_input now
  let answer := rc.1.answer
  { response := answer
    world := save_conversation w user_id user_input answer none now
    calls := rc.2 }

/-! ## Example inputs used in closed witnesses and counterexamples -/

/-- The empty memory directory. -/
def emptyWorld : World := ⟨[]⟩

/-- A stub Extern whose generator always succeeds with a fixed reply. -/
def extStub : Extern := ⟨fun _ _ => [], fun _ => Except.ok "ok"⟩

/-- A stub Extern whose generator raises on every attempt. -/
def extFail : Extern := ⟨fun _ _ => [], fun _ => Except.error "boom"⟩

/-- A one-turn stored history whose bot response is short (2 characters). -/
def shortReplyWorld : World :=
  ⟨[("u.json", FileContent.valid
      { user_id := "u"
        created_at := 0
        conversations :=
          [{ timestamp := 0, user_message := "q", bot_response := "hi",
             metadata := [] }]
        preferences := [] })]⟩

/-- A one-turn stored history whose bot response is 201 characters long. -/
def longReplyWorld : World :=
  ⟨[("u.json", FileContent.valid
      { user_id := "u"
        created_at := 0
        conversations :=
          [{ timestamp := 0, user_message := "q",
             bot_response := String.mk (List.replicate 201 'a'),
             metadata := [] }]
        preferences := [] })]⟩

/-! ## Spec-worded definitions (for refinement comparisons) -/

/-- Modelled from the spec wording of §4.2: some phrase of the fixed
severity list occurs as a substring of the query, compared
case-insensitively (both sides lower-cased). -/
def isSevereSpec (query : String) : Prop :=
  ∃ kw ∈ SEVERITY_KEYWORDS, (lowerStr kw).toList <:+: (lowerStr query).toList

/-- The new turn appended by `save_conversation`. -/
def mkTurn (now : Nat) (user_message bot_response : String)
    (metadata : Option Dict) : ConversationTurn :=
  { timestamp := now
    user_message := user_message
    bot_response := bot_response
    metadata := metadata.getD [] }

/-- The length invariant of the Conversation Store: every well-formed
stored record holds at most `MAX_CONVERSATION_HISTORY` turns. -/
def WorldInv (w : World) : Prop :=
  ∀ p ∈ w.files, ∀ m, p.2 = FileContent.valid m →
    m.conversations.length ≤ MAX_CONVERSATION_HISTORY

/-- A storage file name of the shape the Conversation Store itself
produces: a stem of allowed characters followed by `.json`. -/
def FileNameOk (f : String) : Prop :=
  ∃ stem : List Char, f.toList = stem ++ (".json").toList ∧
    ∀ c ∈ stem, allowedChar c = true

/-- Every file in the memory directory has a sanitized-shape name. -/
def WorldNamesOk (w : World) : Prop :=
  ∀ p ∈ w.files, FileNameOk p.1

/-! ## Helper lemmas: storage model -/

theorem toList_append (a b : String) : (a ++ b).toList = a.toList ++ b.toList :=
  String.data_append a b

theorem find?_overwrite {β : Type} (l : List (String × β)) (n : String)
    (c : β) (h : l.any (fun p => p.1 = n) = true) :
    (l.map (fun p => if p.1 = n then (n, c) else p)).find? (fun p => p.1 = n)
      = some (n, c) := by
  induction l with
  | nil => simp at h
  | cons p ps ih =>
    by_cases hp : p.1 = n
    · rw [List.map_cons, if_pos hp, List.find?_cons_of_pos _ (by simp)]
    · rw [List.map_cons, if_neg hp, List.find?_cons_of_neg _ (by simpa using hp)]
      apply ih
      simpa [hp] using h

theorem find?_absent_append {β : Type} (l : List (String × β)) (n : String)
    (c : β) (h : ¬ l.any (fun p => p.1 = n) = true) :
    (l ++ [(n, c)]).find? (fun p => p.1 = n) = some (n, c) := by
  rw [List.find?_append]
  have hnone : l.find? (fun p => p.1 = n) = none := by
    rw [List.find?_eq_none]
    intro x hx hcon
    exact h (List.any_eq_true.mpr ⟨x, hx, hcon⟩)
  rw [hnone, Option.none_or, List.find?_cons_of_pos _ (by simp)]

theorem readFile_writeFile_self (w : World) (n : String) (c : FileContent) :
    readFile (writeFile w n c) n = some c := by
  unfold readFile writeFile
  by_cases h : w.files.any (fun p => p.1 = n) = true
  · rw [if_pos h]
    rw [show (⟨w.files.map fun p => if p.1 = n then (n, c) else p⟩ : World).files
          = w.files.map (fun p => if p.1 = n then (n, c) else p) from rfl]
    rw [find?_overwrite w.files n c h]
    rfl
  · rw [if_neg h]
    rw [show (⟨w.files ++ [(n, c)]⟩ : World).files = w.files ++ [(n, c)] from rfl]
    rw [find?_absent_append w.files n c h]
    rfl

theorem find?_overwrite_ne {β : Type} (l : List (String × β)) (n m : String)
    (c : β) (hnm : m ≠ n) :
    (l.map (fun p => if p.1 = n then (n, c) else p)).find? (fun p => p.1 = m)
      = l.find? (fun p => p.1 = m) := by
  induction l with
  | nil => rfl
  | cons p ps ih =>
    by_cases hp : p.1 = n
    · rw [List.map_cons, if_pos hp,
        List.find?_cons_of_neg _ (by simp [hnm.symm]),
        List.find?_cons_of_neg _ (by simp [hp, hnm.symm]), ih]
    · by_cases hm : p.1 = m
      · rw [List.map_cons, if_neg hp,
          List.find?_cons_of_pos _ (by simpa using hm),
          List.find?_cons_of_pos _ (by simpa using hm)]
      · rw [List.map_cons, if_neg hp,
          List.find?_cons_of_neg _ (by simpa using hm),
          List.find?_cons_of_neg _ (by simpa using hm), ih]

theorem readFile_writeFile_ne (w : World) (n m : String) (c : FileContent)
    (hnm : m ≠ n) :
    readFile (writeFile w n c) m = readFile w m := by
  unfold readFile writeFile
  by_cases h : w.files.any (fun p => p.1 = n) = true
  · rw [if_pos h]
    rw [show (⟨w.files.map fun p => if p.1 = n then (n, c) else p⟩ : World).files
          = w.files.map (fun p => if p.1 = n then (n, c) else p) from rfl]
    rw [find?_overwrite_ne w.files n m c hnm]
  · rw [if_neg h]
    rw [show (⟨w.files ++ [(n, c)]⟩ : World).files = w.files ++ [(n, c)] from rfl]
    rw [List.find?_append]
    have : List.find? (fun p => p.1 = m) [(n, c)] = none := by
      rw [List.find?_eq_none]
      intro x hx
      simp at hx
      subst hx
      simp [hnm.symm]
    rw [this, Option.or_none]

theorem mem_writeFile_self (w : World) (n : String) (c : FileContent) :
    (n, c) ∈ (writeFile w n c).files := by
  unfold writeFile
  by_cases h : w.files.any (fun p => p.1 = n) = true
  · rw [if_pos h]
    rcases List.any_eq_true.mp h with ⟨x, hx, hx1⟩
    simp only [decide_eq_true_eq] at hx1
    have : (n, c) = (fun p => if p.1 = n then (n, c) else p) x := by
      simp [hx1]
    rw [show (⟨w.files.map fun p => if p.1 = n then (n, c) else p⟩ : World).files
          = w.files.map (fun p => if p.1 = n then (n, c) else p) from rfl]
    exact List.mem_map.mpr ⟨x, hx, this.symm⟩
  · rw [if_neg h]
    rw [show (⟨w.files ++ [(n, c)]⟩ : World).files = w.files ++ [(n, c)] from rfl]
    exact List.mem_append.mpr (Or.inr (by simp))

theorem mem_writeFile_elim (w : World) (n : String) (c : FileContent)
    (p : String × FileContent) (hp : p ∈ (writeFile w n c).files) :
    p ∈ w.files ∨ p = (n, c) := by
  unfold writeFile at hp
  by_cases h : w.files.any (fun q => q.1 = n) = true
  · rw [if_pos h] at hp
    rw [show (⟨w.files.map fun q => if q.1 = n then (n, c) else q⟩ : World).files
          = w.files.map (fun q => if q.1 = n then (n, c) else q) from rfl] at hp
    rcases List.mem_map.mp hp with ⟨q, hq, hqe⟩
    by_cases hq1 : q.1 = n
    · rw [if_pos hq1] at hqe
      exact Or.inr hqe.symm
    · rw [if_neg hq1] at hqe
      exact Or.inl (hqe ▸ hq)
  · rw [if_neg h] at hp
    rw [show (⟨w.files ++ [(n, c)]⟩ : World).files = w.files ++ [(n, c)] from rfl] at hp
    rcases List.mem_append.mp hp with hp | hp
    · exact Or.inl hp
    · simp at hp
      exact Or.inr hp

/-! ## Helper lemmas: dict operations -/

theorem dictGet_cons (kv : String × JVal) (ps : Dict) (k : String) :
    dictGet (kv :: ps) k = if kv.1 = k then some kv.2 else dictGet ps k := by
  unfold dictGet
  by_cases hk : kv.1 = k
  · rw [List.find?_cons_of_pos _ (by simpa using hk), if_pos hk]
    rfl
  · rw [List.find?_cons_of_neg _ (by simpa using hk), if_neg hk]

theorem dictGet_none_iff (d : Dict) (k : String) :
    dictGet d k = none ↔ ∀ p ∈ d, p.1 ≠ k := by
  unfold dictGet
  constructor
  · intro h p hp
    cases hf : d.find? (fun p => p.1 = k) with
    | none =>
      have := List.find?_eq_none.mp hf p hp
      simpa using this
    | some q => rw [hf] at h; simp at h
  · intro h
    have : d.find? (fun p => p.1 = k) = none := by
      rw [List.find?_eq_none]
      intro p hp
      simpa using h p hp
    rw [this]
    rfl

theorem dictGet_dictSet_self (d : Dict) (k : String) (v : JVal) :
    dictGet (dictSet d k v) k = some v := by
  unfold dictGet dictSet
  by_cases h : d.any (fun p => p.1 = k) = true
  · rw [if_pos h, find?_overwrite d k v h]
    rfl
  · rw [if_neg h, find?_absent_append d k v h]
    rfl

theorem dictGet_dictSet_ne (d : Dict) (k k2 : String) (v : JVal)
    (hk : k2 ≠ k) :
    dictGet (dictSet d k v) k2 = dictGet d k2 := by
  unfold dictGet dictSet
  by_cases h : d.any (fun p => p.1 = k) = true
  · rw [if_pos h, find?_overwrite_ne d k k2 v hk]
  · rw [if_neg h, List.find?_append]
    have : List.find? (fun p => p.1 = k2) [(k, v)] = none := by
      rw [List.find?_eq_none]
      intro x hx
      simp at hx
      subst hx
      simp [hk.symm]
    rw [this, Option.or_none]

theorem dictUpdate_cons (d : Dict) (kv : String × JVal) (ps : Dict) :
    dictUpdate d (kv :: ps) = dictUpdate (dictSet d kv.1 kv.2) ps := rfl

theorem dictGet_dictUpdate_none (d patch : Dict) (k : String)
    (h : dictGet patch k = none) :
    dictGet (dictUpdate d patch) k = dictGet d k := by
  induction patch generalizing d with
  | nil => rfl
  | cons kv ps ih =>
    rw [dictGet_cons] at h
    by_cases hk : kv.1 = k
    · rw [if_pos hk] at h; simp at h
    · rw [if_neg hk] at h
      rw [dictUpdate_cons, ih _ h, dictGet_dictSet_ne _ _ _ _ (fun he => hk he.symm)]

theorem dictGet_dictUpdate_some (d patch : Dict) (k : String) (v : JVal)
    (hnd : (dictKeys patch).Nodup) (h : dictGet patch k = some v) :
    dictGet (dictUpdate d patch) k = some v := by
  induction patch generalizing d with
  | nil => simp [dictGet] at h
  | cons kv ps ih =>
    rw [dictGet_cons] at h
    rw [dictUpdate_cons]
    unfold dictKeys at hnd
    rw [List.map_cons, List.nodup_cons] at hnd
    by_cases hk : kv.1 = k
    · rw [if_pos hk] at h
      have hv : kv.2 = v := Option.some.inj h
      have hps : dictGet ps k = none := by
        rw [dictGet_none_iff]
        intro p hp he
        exact hnd.1 (by
          rw [hk, ← he]
          exact List.mem_map.mpr ⟨p, hp, rfl⟩)
      rw [dictGet_dictUpdate_none _ _ _ hps, ← hk, ← hv, dictGet_dictSet_self]
    · rw [if_neg hk] at h
      exact ih _ hnd.2 h

/-! ## Helper lemmas: Python slices -/

theorem trim_eq_pyLastSlice (l : List α) (n : Nat) (hn : n ≠ 0) :
    (if l.length > n then pyLastSlice l n else l) = pyLastSlice l n := by
  by_cases h : l.length > n
  · rw [if_pos h]
  · rw [if_neg h]
    unfold pyLastSlice
    rw [if_neg hn]
    have he : l.length - n = 0 := by omega
    rw [he, List.drop_zero]

theorem pyLastSlice_concat_getLast? (l : List α) (x : α) (n : Nat)
    (hn : n ≠ 0) :
    (pyLastSlice (l ++ [x]) n).getLast? = some x := by
  unfold pyLastSlice
  rw [if_neg hn]
  have hle : (l ++ [x]).length - n ≤ l.length := by
    simp
    omega
  rw [List.drop_append_of_le_length hle, List.getLast?_concat]

theorem pyLastSlice_length (l : List α) (n : Nat) (hn : n ≠ 0) :
    (pyLastSlice l n).length = min l.length n := by
  unfold pyLastSlice
  rw [if_neg hn, List.length_drop]
  omega

/-! ## Helper lemmas: Conversation Store -/

theorem get_user_memory_write (w : World) (user_id : String) (m : UserMemory)
    (t : Nat) :
    get_user_memory (writeFile w (userFileName user_id) (FileContent.valid m))
      user_id t = m := by
  unfold get_user_memory
  rw [readFile_writeFile_self]

theorem get_user_memory_save (w : World) (user_id msg resp : String)
    (meta : Option Dict) (now t2 : Nat) :
    get_user_memory (save_conversation w user_id msg resp meta now) user_id t2
      = { get_user_memory w user_id now with
          conversations :=
            pyLastSlice
              (get_conversation_history w user_id now ++ [mkTurn now msg resp meta])
              MAX_CONVERSATION_HISTORY } := by
  unfold save_conversation
  rw [get_user_memory_write]
  have ht := trim_eq_pyLastSlice
    ((get_user_memory w user_id now).conversations ++ [mkTurn now msg resp meta])
    MAX_CONVERSATION_HISTORY (by decide)
  unfold get_conversation_history
  unfold mkTurn at ht ⊢
  rw [ht]

theorem get_conversation_history_save (w : World) (user_id msg resp : String)
    (meta : Option Dict) (now t2 : Nat) :
    get_conversation_history (save_conversation w user_id msg resp meta now)
      user_id t2
      = pyLastSlice
          (get_conversation_history w user_id now ++ [mkTurn now msg resp meta])
          MAX_CONVERSATION_HISTORY := by
  unfold get_conversation_history
  rw [get_user_memory_save]
  rfl

theorem get_user_memory_clear (w : World) (user_id : String) (now t2 : Nat) :
    get_user_memory (clear_user_memory w user_id now) user_id t2
      = create_default_memory user_id now := by
  unfold clear_user_memory
  rw [get_user_memory_write]

theorem get_user_memory_update_preferences (w : World) (user_id : String)
    (preferences : Dict) (now t2 : Nat) :
    get_user_memory (update_user_preferences w user_id preferences now)
      user_id t2
      = { get_user_memory w user_id now with
          preferences :=
            dictUpdate (get_user_memory w user_id now).preferences preferences } := by
  unfold update_user_preferences
  rw [get_user_memory_write]

/-! ## Helper lemmas: the length invariant -/

theorem worldInv_writeFile (w : World) (n : String) (c : FileContent)
    (hw : WorldInv w)
    (hc : ∀ m, c = FileContent.valid m →
      m.conversations.length ≤ MAX_CONVERSATION_HISTORY) :
    WorldInv (writeFile w n c) := by
  intro p hp m hm
  rcases mem_writeFile_elim w n c p hp with h | h
  · exact hw p h m hm
  · subst h
    exact hc m hm

theorem get_user_memory_conversations_le (w : World) (user_id : String)
    (now : Nat) (hw : WorldInv w) :
    (get_user_memory w user_id now).conversations.length
      ≤ MAX_CONVERSATION_HISTORY := by
  unfold get_user_memory readFile
  cases hfind : w.files.find? (fun p => p.1 = userFileName user_id) with
  | none => simp [create_default_memory]
  | some p =>
    rw [show Option.map Prod.snd (some p) = some p.2 from rfl]
    cases hc : p.2 with
    | corrupt =>
      simp [create_default_memory]
    | valid m =>
      have hle := hw p (List.mem_of_find?_eq_some hfind) m hc
      exact hle

theorem save_conversation_inv (w : World) (user_id msg resp : String)
    (meta : Option Dict) (now : Nat) (hw : WorldInv w) :
    WorldInv (save_conversation w user_id msg resp meta now) := by
  unfold save_conversation
  apply worldInv_writeFile _ _ _ hw
  intro m hm
  injection hm with hm
  subst hm
  rw [show (({ get_user_memory w user_id now with
        conversations := _ } : UserMemory)).conversations = _ from rfl,
    trim_eq_pyLastSlice _ _ (by decide : MAX_CONVERSATION_HISTORY ≠ 0),
    pyLastSlice_length _ _ (by decide : MAX_CONVERSATION_HISTORY ≠ 0)]
  omega

theorem clear_user_memory_inv (w : World) (user_id : String) (now : Nat)
    (hw : WorldInv w) :
    WorldInv (clear_user_memory w user_id now) := by
  unfold clear_user_memory
  apply worldInv_writeFile _ _ _ hw
  intro m hm
  injection hm with hm
  subst hm
  simp [create_default_memory, MAX_CONVERSATION_HISTORY]

theorem update_user_preferences_inv (w : World) (user_id : String)
    (preferences : Dict) (now : Nat) (hw : WorldInv w) :
    WorldInv (update_user_preferences w user_id preferences now) := by
  unfold update_user_preferences
  apply worldInv_writeFile _ _ _ hw
  intro m hm
  injection hm with hm
  subst hm
  exact get_user_memory_conversations_le w user_id now hw

/-! ## Helper lemmas: sanitization and `list_users` -/

theorem sanitize_chars (uid : String) :
    ∀ c ∈ (sanitizeUserId uid).toList, allowedChar c = true := by
  intro c hc
  unfold sanitizeUserId at hc
  exact (List.mem_filter.mp hc).2

theorem userFileName_toList (uid : String) :
    (userFileName uid).toList = (sanitizeUserId uid).toList ++ (".json").toList :=
  toList_append _ _

theorem fileNameOk_userFileName (uid : String) : FileNameOk (userFileName uid) :=
  ⟨(sanitizeUserId uid).toList, userFileName_toList uid, sanitize_chars uid⟩

theorem strEndsWith_userFileName (uid : String) :
    strEndsWith (userFileName uid) ".json" = true := by
  unfold strEndsWith
  rw [decide_eq_true_eq, userFileName_toList]
  exact ⟨(sanitizeUserId uid).toList, rfl⟩

theorem allowed_ne_dot (c : Char) (h : allowedChar c = true) : c ≠ '.' := by
  intro he
  rw [he] at h
  exact absurd h (by decide)

theorem removeOccsFuel_nil (pat : List Char) (fuel : Nat) :
    removeOccsFuel pat fuel [] = [] := by
  cases fuel <;> rfl

theorem removeOccsFuel_stem (stem : List Char) (fuel : Nat)
    (hf : (stem ++ (".json").toList).length ≤ fuel)
    (h : ∀ c ∈ stem, allowedChar c = true) :
    removeOccsFuel (".json").toList fuel (stem ++ (".json").toList) = stem := by
  induction stem generalizing fuel with
  | nil =>
    cases fuel with
    | zero => simp at hf
    | succ f =>
      rw [List.nil_append]
      simp only [removeOccsFuel]
      rw [if_pos ⟨by decide, List.prefix_refl _⟩]
      exact removeOccsFuel_nil _ _
  | cons c cs ih =>
    cases fuel with
    | zero => simp at hf
    | succ f =>
      rw [List.cons_append]
      simp only [removeOccsFuel]
      have hnp : ¬ ((".json").toList ≠ [] ∧
          (".json").toList <+: (c :: (cs ++ (".json").toList))) := by
        rintro ⟨-, hpre⟩
        have hpre2 : '.' :: ['j', 's', 'o', 'n'] <+: c :: (cs ++ (".json").toList) :=
          hpre
        have := (List.cons_prefix_cons.mp hpre2).1
        exact allowed_ne_dot c (h c (List.mem_cons_self c cs)) this.symm
      rw [if_neg hnp]
      have hf2 : (cs ++ (".json").toList).length ≤ f := by
        rw [List.cons_append] at hf
        simpa using hf
      rw [ih f hf2 (fun x hx => h x (List.mem_cons_of_mem c hx))]

theorem removeOccs_stem (stem : List Char)
    (h : ∀ c ∈ stem, allowedChar c = true) :
    removeOccs (".json").toList (stem ++ (".json").toList) = stem :=
  removeOccsFuel_stem stem _ (Nat.le_refl _) h

theorem pyRemove_userFileName (uid : String) :
    pyRemove (userFileName uid) ".json" = sanitizeUserId uid := by
  unfold pyRemove
  rw [userFileName_toList, removeOccs_stem _ (sanitize_chars uid)]
  rfl

theorem pyRemove_of_fileNameOk (f : String) (hf : FileNameOk f) :
    ∃ stem : List Char, pyRemove f ".json" = String.mk stem ∧
      ∀ c ∈ stem, allowedChar c = true := by
  rcases hf with ⟨stem, hfl, hall⟩
  refine ⟨stem, ?_, hall⟩
  unfold pyRemove
  rw [hfl, removeOccs_stem _ hall]

theorem mem_list_users (w : World) (f : String) (c : FileContent)
    (hf : (f, c) ∈ w.files) (he : strEndsWith f ".json" = true) :
    pyRemove f ".json" ∈ list_users w := by
  unfold list_users
  apply List.mem_filterMap.mpr
  refine ⟨f, List.mem_map.mpr ⟨(f, c), hf, rfl⟩, ?_⟩
  rw [if_pos he]

theorem list_users_mem_elim (w : World) (u : String) (hu : u ∈ list_users w) :
    ∃ f, f ∈ w.files.map Prod.fst ∧ strEndsWith f ".json" = true ∧
      pyRemove f ".json" = u := by
  unfold list_users at hu
  rcases List.mem_filterMap.mp hu with ⟨f, hf, hfe⟩
  by_cases he : strEndsWith f ".json" = true
  · rw [if_pos he] at hfe
    exact ⟨f, hf, he, Option.some.inj hfe⟩
  · rw [if_neg he] at hfe
    simp at hfe

theorem list_users_allowed (w : World) (hw : WorldNamesOk w) (u : String)
    (hu : u ∈ list_users w) : ∀ c ∈ u.toList, allowedChar c = true := by
  rcases list_users_mem_elim w u hu with ⟨f, hf, he, hru⟩
  rcases List.mem_map.mp hf with ⟨p, hp, hpf⟩
  have hok : FileNameOk f := hpf ▸ hw p hp
  rcases pyRemove_of_fileNameOk f hok with ⟨stem, hps, hall⟩
  rw [← hru, hps]
  intro c hc
  exact hall c hc

theorem worldNamesOk_save (w : World) (uid msg resp : String)
    (meta : Option Dict) (now : Nat) (hw : WorldNamesOk w) :
    WorldNamesOk (save_conversation w uid msg resp meta now) := by
  intro p hp
  unfold save_conversation at hp
  rcases mem_writeFile_elim _ _ _ p hp with h | h
  · exact hw p h
  · rw [h]
    exact fileNameOk_userFileName uid

/-! ## Helper lemmas: composed response texts -/

theorem disclaimer_infix_warning :
    MEDICAL_DISCLAIMER.toList <:+: get_severity_warning.toList := by
  unfold get_severity_warning
  rw [toList_append, toList_append]
  exact ⟨_, _, rfl⟩

theorem disclaimer_infix_apology (e : String) :
    MEDICAL_DISCLAIMER.toList <:+: (apologyAnswer e).toList := by
  unfold apologyAnswer
  rw [toList_append, toList_append, toList_append]
  exact ⟨"I apologize, but I encountered an error processing your query: ".toList
    ++ e.toList ++ "\n\n".toList, [], by simp⟩

theorem apologyAnswer_ne_empty (e : String) : apologyAnswer e ≠ "" := by
  intro h
  have h1 := congrArg String.toList h
  unfold apologyAnswer at h1
  rw [toList_append, toList_append, toList_append] at h1
  rcases List.append_eq_nil.mp h1 with ⟨h2, -⟩
  rcases List.append_eq_nil.mp h2 with ⟨h3, -⟩
  rcases List.append_eq_nil.mp h3 with ⟨h4, -⟩
  exact absurd h4 (by decide)

theorem lower_keywords : ∀ kw ∈ SEVERITY_KEYWORDS, lowerStr kw = kw := by decide

theorem format_lines_eq (l : List ConversationTurn)
    (h : ∀ c ∈ l, 200 < pyLen c.bot_response) :
    l.foldr (fun conv acc =>
      ("User: " ++ conv.user_message) ::
      (if 200 < pyLen conv.bot_response then
         "Assistant: " ++ pyTake conv.bot_response 200 ++ "..."
       else
         "Assistant: " ++ conv.bot_response) :: acc) []
    = l.foldr (fun conv acc =>
      ("User: " ++ conv.user_message) ::
      ("Assistant: " ++ pyTake conv.bot_response 200 ++ "...") :: acc) [] := by
  induction l with
  | nil => rfl
  | cons c cs ih =>
    rw [List.foldr_cons, List.foldr_cons,
      if_pos (h c (List.mem_cons_self c cs)),
      ih (fun x hx => h x (List.mem_cons_of_mem c hx))]

/-! ## Helper lemmas: orchestrator reductions -/

theorem worldInv_empty : WorldInv emptyWorld := by
  intro p hp m hm
  simp [emptyWorld] at hp

theorem worldNamesOk_empty : WorldNamesOk emptyWorld := by
  intro p hp
  simp [emptyWorld] at hp

theorem rag_invoke_severe (ext : Extern) (w : World) (k : Nat)
    (user_id q : String) (now : Nat) (hs : check_severity q = true) :
    rag_invoke ext w k user_id q now
      = ({ answer := get_severity_warning
           sources := []
           severity_detected := true }, []) := by
  unfold rag_invoke
  rw [if_pos hs]

theorem rag_invoke_failure (ext : Extern) (w : World) (k : Nat)
    (user_id q e : String) (now : Nat) (hs : check_severity q = false)
    (hf : ∀ inp, ext.chain_invoke inp = Except.error e) :
    (rag_invoke ext w k user_id q now).1.answer = apologyAnswer e := by
  unfold rag_invoke
  rw [if_neg (by simp [hs])]
  simp only [hf]

theorem handle_response (ext : Extern) (w : World) (k : Nat)
    (user_id q : String) (now : Nat) :
    (handle_user_input ext w k user_id q now).response
      = (rag_invoke ext w k user_id q now).1.answer := rfl

theorem handle_world (ext : Extern) (w : World) (k : Nat)
    (user_id q : String) (now : Nat) :
    (handle_user_input ext w k user_id q now).world
      = save_conversation w user_id q
          ((rag_invoke ext w k user_id q now).1.answer) none now := rfl

theorem handle_persists (ext : Extern) (w : World) (k : Nat)
    (user_id q : String) (now t2 : Nat) :
    (get_conversation_history (handle_user_input ext w k user_id q now).world
        user_id t2).getLast?
      = some (mkTurn now q ((rag_invoke ext w k user_id q now).1.answer) none) := by
  rw [handle_world, get_conversation_history_save,
    pyLastSlice_concat_getLast? _ _ _ (by decide)]

/-! ## Claim theorems -/

/-- C1: for every query flagged by the severity check, per-query processing
returns the fixed severity-warning text (which includes the medical
disclaimer) with an empty source list and the severity flag set, performs
no Knowledge-Index search and no Answer-Generator call (the result is also
independent of both collaborators), and the turn (user message plus
warning text) is persisted to the Conversation Store. -/
theorem severity_short_circuit (ext ext2 : Extern) (w : World) (k : Nat)
    (user_id q : String) (now : Nat) (hs : check_severity q = true) :
    (rag_invoke ext w k user_id q now).1.answer = get_severity_warning
  ∧ (rag_invoke ext w k user_id q now).1.sources = []
  ∧ (rag_invoke ext w k user_id q now).1.severity_detected = true
  ∧ (rag_invoke ext w k user_id q now).2 = []
  ∧ MEDICAL_DISCLAIMER.toList <:+: get_severity_warning.toList
  ∧ rag_invoke ext w k user_id q now = rag_invoke ext2 w k user_id q now
  ∧ (handle_user_input ext w k user_id q now).response = get_severity_warning
  ∧ (handle_user_input ext w k user_id q now).calls = []
  ∧ (get_conversation_history (handle_user_input ext w k user_id q now).world
        user_id now).getLast?
      = some (mkTurn now q get_severity_warning none) := by
  have h1 := rag_invoke_severe ext w k user_id q now hs
  have h2 := rag_invoke_severe ext2 w k user_id q now hs
  refine ⟨by rw [h1], by rw [h1], by rw [h1], by rw [h1],
    disclaimer_infix_warning, by rw [h1, h2], ?_, ?_, ?_⟩
  · rw [handle_response, h1]
  · show (rag_invoke ext w k user_id q now).2 = []
    rw [h1]
  · rw [handle_persists, h1]

/-- C1 witness: on the concrete severe query "I have chest pain" the
handler returns exactly the fixed severity warning. -/
theorem severity_short_circuit_witness :
    (handle_user_input extStub emptyWorld 5 "alice" "I have chest pain" 0).response
      = get_severity_warning :=
  (severity_short_circuit extStub extFail emptyWorld 5 "alice" "I have chest pain" 0
    (by decide)).2.2.2.2.2.2.1

/-- C2: for every non-severe query, when the Answer Generator raises on
every attempt, per-query processing still returns the non-empty apology
answer containing the medical disclaimer, and the turn with that exact
answer is persisted; the failure never escapes (the handler is a total
function returning that answer). -/
theorem generation_failure_recovered (ext : Extern) (w : World) (k : Nat)
    (user_id q e : String) (now : Nat) (hs : check_severity q = false)
    (hf : ∀ inp, ext.chain_invoke inp = Except.error e) :
    (handle_user_input ext w k user_id q now).response = apologyAnswer e
  ∧ (handle_user_input ext w k user_id q now).response ≠ ""
  ∧ MEDICAL_DISCLAIMER.toList <:+:
      (handle_user_input ext w k user_id q now).response.toList
  ∧ (get_conversation_history (handle_user_input ext w k user_id q now).world
        user_id now).getLast?
      = some (mkTurn now q (apologyAnswer e) none) := by
  have h1 := rag_invoke_failure ext w k user_id q e now hs hf
  have hr : (handle_user_input ext w k user_id q now).response = apologyAnswer e := by
    rw [handle_response, h1]
  refine ⟨hr, ?_, ?_, ?_⟩
  · rw [hr]
    exact apologyAnswer_ne_empty e
  · rw [hr]
    exact disclaimer_infix_apology e
  · rw [handle_persists, h1]

/-- C2 witness: with an always-failing generator and the non-severe query
"flu", the handler returns the apology answer built from the failure
message. -/
theorem generation_failure_recovered_witness :
    (handle_user_input extFail emptyWorld 5 "alice" "flu" 0).response
      = apologyAnswer "boom" :=
  (generation_failure_recovered extFail emptyWorld 5 "alice" "flu" "boom" 0
    (by decide) (fun _ => rfl)).1

/-- C3: `save_conversation` makes the stored history equal to the last
`MAX_CONVERSATION_HISTORY` entries of the old history extended with the
new turn (FIFO eviction, new turn last, length at most the cap), and every
writing Conversation Store operation preserves the length invariant. -/
theorem conversation_store_fifo (w : World) (user_id msg resp : String)
    (meta : Option Dict) (prefs : Dict) (now t2 : Nat) (hw : WorldInv w) :
    get_conversation_history (save_conversation w user_id msg resp meta now)
        user_id t2
      = pyLastSlice
          (get_conversation_history w user_id now ++ [mkTurn now msg resp meta])
          MAX_CONVERSATION_HISTORY
  ∧ (get_conversation_history (save_conversation w user_id msg resp meta now)
        user_id t2).getLast? = some (mkTurn now msg resp meta)
  ∧ (get_conversation_history (save_conversation w user_id msg resp meta now)
        user_id t2).length ≤ MAX_CONVERSATION_HISTORY
  ∧ WorldInv (save_conversation w user_id msg resp meta now)
  ∧ WorldInv (clear_user_memory w user_id now)
  ∧ WorldInv (update_user_preferences w user_id prefs now) := by
  have h1 := get_conversation_history_save w user_id msg resp meta now t2
  refine ⟨h1, ?_, ?_, save_conversation_inv w user_id msg resp meta now hw,
    clear_user_memory_inv w user_id now hw,
    update_user_preferences_inv w user_id prefs now hw⟩
  · rw [h1, pyLastSlice_concat_getLast? _ _ _ (by decide)]
  · rw [h1, pyLastSlice_length _ _ (by decide)]
    exact min_le_right _ _

/-- C3 witness: appending one turn to an empty store leaves it as the
last element of the history. -/
theorem conversation_store_fifo_witness :
    (get_conversation_history
        (save_conversation emptyWorld "u" "hello" "world" none 3) "u" 4).getLast?
      = some (mkTurn 3 "hello" "world" none) :=
  (conversation_store_fifo emptyWorld "u" "hello" "world" none [] 3 4
    worldInv_empty).2.1

/-- C4: loading a user memory never fails: a missing or corrupt
(unparseable) storage file yields the freshly initialized default record
(with empty conversations), which is also exactly what a load after an
explicit clear yields. -/
theorem load_never_fails_default (w w2 : World) (user_id : String)
    (now t2 : Nat)
    (hm : readFile w (userFileName user_id) = none
        ∨ readFile w (userFileName user_id) = some FileContent.corrupt) :
    get_user_memory w user_id now = create_default_memory user_id now
  ∧ (get_user_memory w user_id now).conversations = []
  ∧ get_user_memory (clear_user_memory w2 user_id now) user_id t2
      = create_default_memory user_id now
  ∧ get_user_memory w user_id now
      = get_user_memory (clear_user_memory w2 user_id now) user_id t2 := by
  have h1 : get_user_memory w user_id now = create_default_memory user_id now := by
    unfold get_user_memory
    rcases hm with hm | hm <;> rw [hm]
  have h2 := get_user_memory_clear w2 user_id now t2
  exact ⟨h1, by rw [h1]; rfl, h2, by rw [h1, h2]⟩

/-- C4 witness: loading an unseen user id from an empty store returns the
default record. -/
theorem load_never_fails_default_witness :
    get_user_memory emptyWorld "bob" 5 = create_default_memory "bob" 5 :=
  (load_never_fails_default emptyWorld emptyWorld "bob" 5 6 (Or.inl rfl)).1

/-- C5 counterexample: with a stored turn whose bot response is the
2-character string "hi", the history string the orchestrator composes
differs from `get_formatted_history(user_id, max_turns = 10)` — the
orchestrator appends "..." even to responses not longer than 200
characters, the store does not. -/
theorem format_history_mismatch :
    format_chat_history shortReplyWorld "u" 0
      ≠ get_formatted_history shortReplyWorld "u" 10 0 := by decide

/-- C5 amended: both renderings return the empty string on empty history,
and they agree whenever every bot response among the last 10 turns is
longer than 200 characters (the only divergence is the unconditional
"..." suffix the orchestrator appends to short responses). -/
theorem format_chat_history_amended (w : World) (user_id : String) (now : Nat) :
    (get_conversation_history w user_id now = [] →
        format_chat_history w user_id now = ""
      ∧ get_formatted_history w user_id 10 now = "")
  ∧ ((∀ c ∈ pyLastSlice (get_conversation_history w user_id now) 10,
        200 < pyLen c.bot_response) →
      format_chat_history w user_id now = get_formatted_history w user_id 10 now) := by
  constructor
  · intro h
    constructor
    · unfold format_chat_history
      rw [if_pos h]
    · unfold get_formatted_history
      rw [if_pos h]
  · intro h
    unfold format_chat_history get_formatted_history
    by_cases he : get_conversation_history w user_id now = []
    · rw [if_pos he, if_pos he]
    · rw [if_neg he, if_neg he]
      exact congrArg (String.intercalate "\n") (format_lines_eq _ h).symm

/-- C5 amended witness: with a single stored turn whose bot response has
201 characters, the two renderings coincide. -/
theorem format_chat_history_amended_witness :
    format_chat_history longReplyWorld "u" 0
      = get_formatted_history longReplyWorld "u" 10 0 :=
  (format_chat_history_amended longReplyWorld "u" 0).2 (by decide)

/-- C6: the severity check returns true exactly when some phrase of the
fixed severity-keyword list occurs as a substring of the query, compared
case-insensitively; it is a pure function of the query and the constant
list. -/
theorem check_severity_correct (q : String) :
    check_severity q = true ↔ isSevereSpec q := by
  unfold check_severity isSevereSpec
  rw [List.any_eq_true]
  constructor
  · rintro ⟨kw, hkw, hc⟩
    refine ⟨kw, hkw, ?_⟩
    rw [lower_keywords kw hkw]
    unfold strContains at hc
    exact of_decide_eq_true hc
  · rintro ⟨kw, hkw, hc⟩
    refine ⟨kw, hkw, ?_⟩
    unfold strContains
    apply decide_eq_true
    rw [lower_keywords kw hkw] at hc
    exact hc

/-- C7: every Conversation Store operation for a raw user id resolves to
the single sanitized storage location: the path is the memory directory
plus the sanitized id plus ".json", the sanitized id is exactly the raw id
with every character that is not alphanumeric, hyphen or underscore
removed (so no slash survives), writes touch no other file, and each
writing operation creates a well-formed record at that location. -/
theorem sanitized_path_consistent (w : World) (user_id msg resp other : String)
    (meta : Option Dict) (prefs : Dict) (now : Nat)
    (ho : other ≠ userFileName user_id) :
    get_user_file_path user_id
      = MEMORY_PATH ++ "/" ++ (sanitizeUserId user_id ++ ".json")
  ∧ sanitizeUserId user_id = String.mk (user_id.toList.filter allowedChar)
  ∧ (∀ c ∈ (sanitizeUserId user_id).toList, allowedChar c = true)
  ∧ (∀ c ∈ (userFileName user_id).toList, c ≠ '/')
  ∧ readFile (save_conversation w user_id msg resp meta now) other
      = readFile w other
  ∧ readFile (clear_user_memory w user_id now) other = readFile w other
  ∧ readFile (update_user_preferences w user_id prefs now) other
      = readFile w other
  ∧ (∃ m, readFile (save_conversation w user_id msg resp meta now)
        (userFileName user_id) = some (FileContent.valid m))
  ∧ (∃ m, readFile (clear_user_memory w user_id now) (userFileName user_id)
        = some (FileContent.valid m))
  ∧ (∃ m, readFile (update_user_preferences w user_id prefs now)
        (userFileName user_id) = some (FileContent.valid m))
  ∧ (∀ w2 : World, readFile w2 (userFileName user_id)
        = readFile w (userFileName user_id) →
      get_user_memory w2 user_id now = get_user_memory w user_id now) := by
  refine ⟨rfl, rfl, sanitize_chars user_id, ?_, ?_, ?_, ?_, ?_, ?_, ?_, ?_⟩
  · intro c hc
    rw [userFileName_toList] at hc
    rcases List.mem_append.mp hc with h | h
    · have ha := sanitize_chars user_id c h
      intro he
      rw [he] at ha
      exact absurd ha (by decide)
    · exact (by decide : ∀ x ∈ (".json").toList, x ≠ '/') c h
  · unfold save_conversation
    exact readFile_writeFile_ne _ _ _ _ ho
  · unfold clear_user_memory
    exact readFile_writeFile_ne _ _ _ _ ho
  · unfold update_user_preferences
    exact readFile_writeFile_ne _ _ _ _ ho
  · unfold save_conversation
    exact ⟨_, readFile_writeFile_self _ _ _⟩
  · unfold clear_user_memory
    exact ⟨_, readFile_writeFile_self _ _ _⟩
  · unfold update_user_preferences
    exact ⟨_, readFile_writeFile_self _ _ _⟩
  · intro w2 hw2
    unfold get_user_memory
    rw [hw2]

/-- C7 witness: for the traversal-shaped raw id "../x" the storage path is
the sanitized "x.json" inside the memory directory. -/
theorem sanitized_path_consistent_witness :
    get_user_file_path "../x"
      = MEMORY_PATH ++ "/" ++ (sanitizeUserId "../x" ++ ".json") :=
  (sanitized_path_consistent emptyWorld "../x" "m" "r" "other.json" none [] 0
    (by decide)).1

/-- C8: `update_user_preferences` merges key-wise instead of replacing:
afterwards the stored preferences are the old mapping overridden by the
patch — every patch key maps to the patch value, and every other key keeps
its previous value. -/
theorem update_preferences_merges (w : World) (user_id : String) (d : Dict)
    (now t2 : Nat) (hd : (dictKeys d).Nodup) :
    get_user_preferences (update_user_preferences w user_id d now) user_id t2
      = dictUpdate (get_user_preferences w user_id now) d
  ∧ (∀ k v, dictGet d k = some v →
      dictGet (get_user_preferences (update_user_preferences w user_id d now)
        user_id t2) k = some v)
  ∧ (∀ k, dictGet d k = none →
      dictGet (get_user_preferences (update_user_preferences w user_id d now)
        user_id t2) k = dictGet (get_user_preferences w user_id now) k) := by
  have h1 : get_user_preferences (update_user_preferences w user_id d now)
      user_id t2 = dictUpdate (get_user_preferences w user_id now) d := by
    unfold get_user_preferences
    rw [get_user_memory_update_preferences]
  refine ⟨h1, ?_, ?_⟩
  · intro k v hk
    rw [h1]
    exact dictGet_dictUpdate_some _ d k v hd hk
  · intro k hk
    rw [h1]
    exact dictGet_dictUpdate_none _ d k hk

/-- C8 witness: setting the "allergies" key on a fresh user merges into
the pre-populated default preferences. -/
theorem update_preferences_merges_witness :
    get_user_preferences
        (update_user_preferences emptyWorld "u"
          [("allergies", JVal.strList ["penicillin"])] 0) "u" 1
      = dictUpdate (get_user_preferences emptyWorld "u" 0)
          [("allergies", JVal.strList ["penicillin"])] :=
  (update_preferences_merges emptyWorld "u"
    [("allergies", JVal.strList ["penicillin"])] 0 1 (by decide)).1

/-- C9: `list_users` enumerates sanitized identifiers: after an append for
a raw id containing a disallowed character, the listing contains the
sanitized form and not the raw id, and every stored file whose name ends
in ".json" is reported as a user. -/
theorem list_users_sanitized (w : World) (user_id msg resp : String)
    (meta : Option Dict) (now : Nat) (hn : WorldNamesOk w)
    (hbad : user_id.toList.any (fun c => ! allowedChar c) = true) :
    sanitizeUserId user_id
      ∈ list_users (save_conversation w user_id msg resp meta now)
  ∧ user_id ∉ list_users (save_conversation w user_id msg resp meta now)
  ∧ (∀ f c, (f, c) ∈ w.files → strEndsWith f ".json" = true →
      pyRemove f ".json" ∈ list_users w) := by
  refine ⟨?_, ?_, ?_⟩
  · have hmem : (userFileName user_id, FileContent.valid
        { get_user_memory w user_id now with
          conversations :=
            if ((get_user_memory w user_id now).conversations
                ++ [mkTurn now msg resp meta]).length > MAX_CONVERSATION_HISTORY
            then pyLastSlice ((get_user_memory w user_id now).conversations
                ++ [mkTurn now msg resp meta]) MAX_CONVERSATION_HISTORY
            else (get_user_memory w user_id now).conversations
                ++ [mkTurn now msg resp meta] })
        ∈ (save_conversation w user_id msg resp meta now).files := by
      unfold save_conversation
      exact mem_writeFile_self _ _ _
    have := mem_list_users _ _ _ hmem (strEndsWith_userFileName user_id)
    rw [pyRemove_userFileName] at this
    exact this
  · intro hin
    have hall := list_users_allowed _
      (worldNamesOk_save w user_id msg resp meta now hn) user_id hin
    rcases List.any_eq_true.mp hbad with ⟨c, hc, hcb⟩
    have := hall c hc
    rw [this] at hcb
    exact absurd hcb (by decide)
  · intro f c hf he
    exact mem_list_users w f c hf he

/-- C9 witness: after appending for the raw id "a/b" (containing a slash)
to an empty store, the listing contains the sanitized id "ab". -/
theorem list_users_sanitized_witness :
    sanitizeUserId "a/b"
      ∈ list_users (save_conversation emptyWorld "a/b" "m" "r" none 0) :=
  (list_users_sanitized emptyWorld "a/b" "m" "r" none 0 worldNamesOk_empty
    (by decide)).1

/-- C10: the freshly initialized record (returned on unseen or corrupt
load and written by clear) has empty conversations and preferences
pre-populated with exactly the keys "name" (bound to the raw user id),
"known_conditions" and "allergies" (both empty lists) — never an empty
mapping. -/
theorem default_memory_shape (user_id : String) (now : Nat) (w : World) :
    (create_default_memory user_id now).conversations = []
  ∧ (create_default_memory user_id now).preferences
      = [("name", JVal.str user_id), ("known_conditions", JVal.strList []),
         ("allergies", JVal.strList [])]
  ∧ (create_default_memory user_id now).preferences ≠ []
  ∧ get_user_memory emptyWorld user_id now = create_default_memory user_id now
  ∧ readFile (clear_user_memory w user_id now) (userFileName user_id)
      = some (FileContent.valid (create_default_memory user_id now)) := by
  refine ⟨rfl, rfl, by simp [create_default_memory], rfl, ?_⟩
  unfold clear_user_memory
  exact readFile_writeFile_self _ _ _

end MedChat
